import Mathlib

/-!
Shallow embedding of the MHC class-I binding-predictor notebook
(`epitope/mhci_lesson.ipynb`): peptide encoders, the log50k affinity
transform, the minimum-sample trainer guard, and the repeated-split
AUC evaluation, together with theorems checking the specification's
claims against these definitions.
-/

set_option maxRecDepth 100000

namespace MhcI

/-- The 20-letter amino-acid alphabet, in the source's (alphabetical) order:
`codes = ['A','C','D','E','F','G','H','I','K','L','M','N','P','Q','R','S','T','V','W','Y']`. -/
def codes : List Char :=
  ['A', 'C', 'D', 'E', 'F', 'G', 'H', 'I', 'K', 'L',
   'M', 'N', 'P', 'Q', 'R', 'S', 'T', 'V', 'W', 'Y']

/-- Column order used by pandas when sorting single-character column labels:
code-point order on `Char`. -/
def charLe (a b : Char) : Prop := a.val ≤ b.val

instance : DecidableRel charLe := fun a b => inferInstanceAs (Decidable (a.val ≤ b.val))

/-- The column set of `one_hot_encode` for input `seq`.  The source builds
`get_dummies` columns (the distinct letters of `seq`, unknown letters included),
joins the zero columns for the alphabet letters absent from `seq`, and sorts the
column labels (`a.sort_index(axis=1)`); the resulting label list is the sorted
distinct union of `codes` with the letters of `seq`. -/
def oneHotCols (seq : List Char) : List Char :=
  List.insertionSort charLe (codes ++ (seq.filter (fun c => decide (c ∉ codes))).dedup)

/-- Embedding of `one_hot_encode` from the source: row `i` of the dummy matrix has a 1 in
column `seq[i]` and 0 elsewhere; `a.values.flatten()` concatenates the rows. -/
def one_hot_encode (seq : List Char) : List Nat :=
  seq.flatMap (fun ch => (oneHotCols seq).map (fun c => if c = ch then 1 else 0))

/-- The sample peptide of the notebook: `pep = 'ALDFEQEMT'`. -/
def pep : List Char := ['A', 'L', 'D', 'F', 'E', 'Q', 'E', 'M', 'T']

/-- Modelled from the spec: the lookup table `ep.blosum62` is supplied by the
external `epitopepredict` package, not by this repository.  Per the spec it is
the standard BLOSUM62 substitution matrix, rows and columns keyed by amino-acid
letter in the standard order `A R N D C Q E G H I L K M F P S T W Y V B Z X *`
(20 amino acids followed by the 4 trailing ambiguity/gap columns `B Z X *`).
`blosum62 c` is the row for letter `c`; letters outside the alphabet have no row. -/
def blosum62 (c : Char) : List Int :=
  if c = 'A' then [4,-1,-2,-2,0,-1,-1,0,-2,-1,-1,-1,-1,-2,-1,1,0,-3,-2,0,-2,-1,0,-4]
  else if c = 'R' then [-1,5,0,-2,-3,1,0,-2,0,-3,-2,2,-1,-3,-2,-1,-1,-3,-2,-3,-1,0,-1,-4]
  else if c = 'N' then [-2,0,6,1,-3,0,0,0,1,-3,-3,0,-2,-3,-2,1,0,-4,-2,-3,3,0,-1,-4]
  else if c = 'D' then [-2,-2,1,6,-3,0,2,-1,-1,-3,-4,-1,-3,-3,-1,0,-1,-4,-3,-3,4,1,-1,-4]
  else if c = 'C' then [0,-3,-3,-3,9,-3,-4,-3,-3,-1,-1,-3,-1,-2,-3,-1,-1,-2,-2,-1,-3,-3,-2,-4]
  else if c = 'Q' then [-1,1,0,0,-3,5,2,-2,0,-3,-2,1,0,-3,-1,0,-1,-2,-1,-2,0,3,-1,-4]
  else if c = 'E' then [-1,0,0,2,-4,2,5,-2,0,-3,-3,1,-2,-3,-1,0,-1,-3,-2,-2,1,4,-1,-4]
  else if c = 'G' then [0,-2,0,-1,-3,-2,-2,6,-2,-4,-4,-2,-3,-3,-2,0,-2,-2,-3,-3,-1,-2,-1,-4]
  else if c = 'H' then [-2,0,1,-1,-3,0,0,-2,8,-3,-3,-1,-2,-1,-2,-1,-2,-2,2,-3,0,0,-1,-4]
  else if c = 'I' then [-1,-3,-3,-3,-1,-3,-3,-4,-3,4,2,-3,1,0,-3,-2,-1,-3,-1,3,-3,-3,-1,-4]
  else if c = 'L' then [-1,-2,-3,-4,-1,-2,-3,-4,-3,2,4,-2,2,0,-3,-2,-1,-2,-1,1,-4,-3,-1,-4]
  else if c = 'K' then [-1,2,0,-1,-3,1,1,-2,-1,-3,-2,5,-1,-3,-1,0,-1,-3,-2,-2,0,1,-1,-4]
  else if c = 'M' then [-1,-1,-2,-3,-1,0,-2,-3,-2,1,2,-1,5,0,-2,-1,-1,-1,-1,1,-3,-1,-1,-4]
  else if c = 'F' then [-2,-3,-3,-3,-2,-3,-3,-3,-1,0,0,-3,0,6,-4,-2,-2,1,3,-1,-3,-3,-1,-4]
  else if c = 'P' then [-1,-2,-2,-1,-3,-1,-1,-2,-2,-3,-3,-1,-2,-4,7,-1,-1,-4,-3,-2,-2,-1,-2,-4]
  else if c = 'S' then [1,-1,1,0,-1,0,0,0,-1,-2,-2,0,-1,-2,-1,4,1,-3,-2,-2,0,0,0,-4]
  else if c = 'T' then [0,-1,0,-1,-1,-1,-1,-2,-2,-1,-1,-1,-1,-2,-1,1,5,-2,-2,0,-1,-1,0,-4]
  else if c = 'W' then [-3,-3,-4,-4,-2,-2,-3,-2,-2,-3,-2,-3,-1,1,-4,-3,-3,11,2,-3,-4,-3,-2,-4]
  else if c = 'Y' then [-2,-2,-2,-3,-2,-1,-2,-3,2,-1,-1,-2,-1,3,-3,-2,-2,2,7,-1,-3,-2,-1,-4]
  else if c = 'V' then [0,-3,-3,-3,-1,-2,-2,-3,-3,3,1,-2,1,-1,-2,-2,0,-3,-1,4,-3,-2,-1,-4]
  else []

/-- Embedding of `blosum_encode` from the source: each position contributes its BLOSUM62
row with the last 4 columns dropped (`x.iloc[:,:-4]`), and the rows are
concatenated (`x.values.flatten()`). -/
def blosum_encode (seq : List Char) : List Int :=
  seq.flatMap (fun c => (blosum62 c).take ((blosum62 c).length - 4))

/-- Embedding of `random_encode` from the source:
`def random_encode(p): return [np.random.randint(20) for i in pep]`.
The draws of `np.random.randint(20)` are abstracted as a stream
`rng : Nat → Fin 20` (draw `i` of the comprehension).  Note the body iterates
over the module-level sample peptide `pep`, not over the parameter `p`. -/
def random_encode (rng : Nat → Fin 20) (p : List Char) : List Nat :=
  (List.range pep.length).map (fun i => (rng i).val)

/-- Forward direction `to_target` of the affinity transform: `log50k = 1 - log(ic50)/log(50000)`
(the notebook's linearisation of the IC50 scale). -/
noncomputable def to_target (ic50 : ℝ) : ℝ := 1 - Real.log ic50 / Real.log 50000

/-- Inverse direction `from_target` of the affinity transform: `ic50 = 50000^(1 - log50k)`. -/
noncomputable def from_target (log50k : ℝ) : ℝ := (50000 : ℝ) ^ (1 - log50k)

/-- A training/evaluation record as used by the notebook: the peptide and its
log50k affinity target (`data.peptide`, `data.log50k`). -/
structure AffinityRecord where
  peptide : List Char
  log50k : ℚ

/-- Embedding of `build_predictor` from the source.  The sklearn `MLPRegressor` fit is
external to the repository and is abstracted as the parameter `fit`, applied to
the encoded peptides (`data.peptide.apply(encoder)`) and the targets
(`data.log50k`); the guard `if len(data)<100: return` yields `none`. -/
def build_predictor {M : Type} (fit : List (List ℚ) → List ℚ → M)
    (encoder : List Char → List ℚ) (data : List AffinityRecord) : Option M :=
  if data.length < 100 then none
  else some (fit (data.map (fun r => encoder r.peptide)) (data.map (fun r => r.log50k)))

/-- Modelled from the spec: `sklearn.metrics.roc_curve` followed by
`sklearn.metrics.auc` is external to the repository.  On a finite sample the
trapezoidal area under the ROC curve equals the rank statistic
`P(score_pos > score_neg) + (1/2) P(score_pos = score_neg)` over all
positive/negative pairs, which is the definition used here; `pairs` carries
`(label = pos_label, score)` for each sample.  When one of the classes is
absent the ROC rates are undefined (sklearn propagates NaN), modelled as
`none`. -/
def roc_auc (pairs : List (Bool × ℚ)) : Option ℚ :=
  let pos := (pairs.filter (fun r => r.1)).map (fun r => r.2)
  let neg := (pairs.filter (fun r => !r.1)).map (fun r => r.2)
  if pos.length = 0 ∨ neg.length = 0 then none
  else some
    ((pos.flatMap (fun p => neg.map (fun n =>
        if n < p then (1 : ℚ) else if p = n then 1/2 else 0))).sum
      / ((pos.length : ℚ) * (neg.length : ℚ)))

/-- Embedding of `auc_score` from the source: binarize the true labels at the cutoff
(`true = (true<=cutoff).astype(int)`), binarize the scores at the cutoff
(`sc = (sc<=cutoff).astype(int)`), then compute the ROC-AUC with
`pos_label=1`. -/
def auc_score (t sc : List ℚ) (cutoff : ℚ) : Option ℚ :=
  roc_auc ((t.map (fun v => decide (v ≤ cutoff))).zip
           (sc.map (fun v => if v ≤ cutoff then (1 : ℚ) else 0)))

/-- The evaluation the specification describes for the same inputs: binarize
only the true labels at the cutoff and feed the continuous prediction scores
to the ROC-AUC computation. -/
def auc_score_spec (t sc : List ℚ) (cutoff : ℚ) : Option ℚ :=
  roc_auc ((t.map (fun v => decide (v ≤ cutoff))).zip sc)

/-- The per-repeat evaluation loop of `test_predictor` from the source.  The
random 70/30 `train_test_split` and the `MLPRegressor` fit and prediction are
external (sklearn); each repeat is abstracted as the pair of the held-out true
log50k values `y_test` and the model's scores `sc` on that partition.  The loop
computes `auc_score(y_test, sc, cutoff=.426)` for each repeat and returns
`np.mean(res)` (NaN — modelled as `none` — as soon as one repeat is NaN). -/
def test_predictor (repeats : List (List ℚ × List ℚ)) : Option ℚ :=
  let res := repeats.map (fun r => auc_score r.1 r.2 (426/1000))
  if res.all (fun o => o.isSome) then
    some ((res.map (fun o => o.getD 0)).sum / (res.length : ℚ))
  else none

/-- True positives of a binarized repeat: samples whose true value and score
are both at or below the cutoff (both "binding"). -/
def tpCount (c : ℚ) (t sc : List ℚ) : Nat :=
  ((t.zip sc).filter (fun r => decide (r.1 ≤ c) && decide (r.2 ≤ c))).length

/-- False negatives: true value at or below the cutoff, score above it. -/
def fnCount (c : ℚ) (t sc : List ℚ) : Nat :=
  ((t.zip sc).filter (fun r => decide (r.1 ≤ c) && !decide (r.2 ≤ c))).length

/-- False positives: true value above the cutoff, score at or below it. -/
def fpCount (c : ℚ) (t sc : List ℚ) : Nat :=
  ((t.zip sc).filter (fun r => !decide (r.1 ≤ c) && decide (r.2 ≤ c))).length

/-- True negatives: true value and score both above the cutoff. -/
def tnCount (c : ℚ) (t sc : List ℚ) : Nat :=
  ((t.zip sc).filter (fun r => !decide (r.1 ≤ c) && !decide (r.2 ≤ c))).length

/-- Balanced accuracy (mean of sensitivity and specificity) of a binarized
repeat — the quantity `auc_score` actually computes once both sides are
thresholded. -/
def balancedAcc (c : ℚ) (t sc : List ℚ) : ℚ :=
  ((tpCount c t sc : ℚ) / ((tpCount c t sc : ℚ) + (fnCount c t sc : ℚ))
    + (tnCount c t sc : ℚ) / ((tnCount c t sc : ℚ) + (fpCount c t sc : ℚ))) / 2

/-- A concrete evaluation repeat (held-out truths paired with scores), used to
evaluate the repeated-split evaluation on concrete data. -/
def evalRepeat : List ℚ × List ℚ := ([1/10, 9/10], [1/10, 9/10])

/-- A fixed rng stream for evaluating `random_encode` on concrete inputs. -/
def rng0 : Nat → Fin 20 := fun _ => (0 : Fin 20)

/-- Modelled from the spec: the `Predictor` façade lives in the external
`epitopepredict` package.  Per the spec it encodes each peptide, applies the
allele's model to obtain log50k, inverts via `from_target` to ic50, and
returns one row `(peptide, allele, ic50)` per (peptide, allele) pair; the
fitted regression model is abstracted as `model : List Char → ℝ` mapping a
peptide to its predicted log50k. -/
noncomputable def predict (model : List Char → ℝ)
    (peptides : List (List Char)) (alleles : List String) :
    List (List Char × String × ℝ) :=
  alleles.flatMap (fun a => peptides.map (fun p => (p, a, from_target (model p))))

/-- C3: the affinity transform satisfies `to_target 50000 = 0`,
`to_target 1 = 1`, is strictly decreasing on `(0, ∞)`, and `from_target`
inverts it there: `from_target (to_target x) = x` for every `x > 0`. -/
theorem C3_affinity_transform (x : ℝ) (hx : 0 < x) :
    to_target 50000 = 0 ∧ to_target 1 = 1 ∧
    StrictAntiOn to_target (Set.Ioi (0 : ℝ)) ∧ from_target (to_target x) = x := by
  have hlog : (0 : ℝ) < Real.log 50000 := Real.log_pos (by norm_num)
  refine ⟨?_, ?_, ?_, ?_⟩
  · unfold to_target
    rw [div_self hlog.ne']
    ring
  · unfold to_target
    rw [Real.log_one, zero_div]
    ring
  · intro a ha b hb hab
    unfold to_target
    have h1 : Real.log a < Real.log b := Real.log_lt_log ha hab
    have h2 : Real.log a / Real.log 50000 < Real.log b / Real.log 50000 :=
      (div_lt_div_iff_of_pos_right hlog).mpr h1
    linarith
  · unfold to_target from_target
    have h1 : 1 - (1 - Real.log x / Real.log 50000) = Real.log x / Real.log 50000 := by
      ring
    rw [h1, Real.rpow_def_of_pos (by norm_num : (0:ℝ) < 50000), mul_comm,
      div_mul_cancel₀ _ hlog.ne']
    exact Real.exp_log hx

theorem C3_witness :
    (0 : ℝ) < 2 ∧
    (to_target 50000 = 0 ∧ to_target 1 = 1 ∧
      StrictAntiOn to_target (Set.Ioi (0 : ℝ)) ∧ from_target (to_target 2) = 2) :=
  ⟨by norm_num, C3_affinity_transform 2 (by norm_num)⟩

/-- C4: with fewer than 100 training records `build_predictor` fits nothing and
returns `none`; with at least 100 records it fits and returns a model. -/
theorem C4_min_training {M : Type} (fit : List (List ℚ) → List ℚ → M)
    (encoder : List Char → List ℚ) (data : List AffinityRecord) :
    (data.length < 100 → build_predictor fit encoder data = none) ∧
    (100 ≤ data.length → ∃ m : M, build_predictor fit encoder data = some m) := by
  constructor
  · intro h
    simp [build_predictor, h]
  · intro h
    refine ⟨fit (data.map (fun r => encoder r.peptide)) (data.map (fun r => r.log50k)), ?_⟩
    simp [build_predictor, Nat.not_lt.mpr h]

theorem C4_witness :
    (build_predictor (fun _ _ => ()) (fun _ => [])
        (List.replicate 99 (AffinityRecord.mk ['A'] 0)) = none) ∧
    (∃ m : Unit, build_predictor (fun _ _ => ()) (fun _ => [])
        (List.replicate 100 (AffinityRecord.mk ['A'] 0)) = some m) :=
  ⟨(C4_min_training _ _ _).1 (by norm_num),
   (C4_min_training _ _ _).2 (by norm_num)⟩

/-- C9: `random_encode` is expected to return one draw per position of its
argument `p`, but its body iterates over the module-level sample peptide
`pep` (`[np.random.randint(20) for i in pep]`), so on the length-2 input
`"AA"` it returns 9 values, not 2. -/
theorem C9_ignores_argument :
    (random_encode rng0 ['A', 'A']).length = 9 ∧
    (random_encode rng0 ['A', 'A']).length ≠ (['A', 'A'] : List Char).length := by
  constructor
  · rfl
  · decide

/-- C8 as stated is false for an unconstrained fitted model: the spec-modelled
`predict` inverts the model's log50k output through `from_target`, and a model
emitting log50k `-1` for the sample peptide yields
`ic50 = 50000^2 > 50000`, outside `(0, 50000]`. -/
theorem C8_counterexample :
    ∃ r ∈ predict (fun _ => (-1 : ℝ)) [pep] ["HLA-A*03:01"], 50000 < r.2.2 := by
  refine ⟨(pep, "HLA-A*03:01", from_target (-1)), by simp [predict], ?_⟩
  unfold from_target
  have h1 : (1 : ℝ) - (-1) = ((2 : ℕ) : ℝ) := by norm_num
  rw [h1, Real.rpow_natCast]
  norm_num

/-- C8 (amended): `predict` on the single pair
`(["ALDFEQEMT"], ["HLA-A*03:01"])` returns exactly one row; its ic50 is always
strictly positive, and lies in `(0, 50000]` whenever the model's log50k output
for the peptide is nonnegative. -/
theorem C8_one_row (model : List Char → ℝ) :
    (predict model [pep] ["HLA-A*03:01"]).length = 1 ∧
    ∀ r ∈ predict model [pep] ["HLA-A*03:01"],
      0 < r.2.2 ∧ (0 ≤ model r.1 → r.2.2 ≤ 50000) := by
  have hpred : predict model [pep] ["HLA-A*03:01"]
      = [(pep, "HLA-A*03:01", from_target (model pep))] := by
    simp [predict]
  rw [hpred]
  refine ⟨rfl, ?_⟩
  intro r hr
  rw [List.mem_singleton] at hr
  subst hr
  constructor
  · exact Real.rpow_pos_of_pos (by norm_num) _
  · intro hm
    unfold from_target
    calc (50000 : ℝ) ^ (1 - model pep)
        ≤ (50000 : ℝ) ^ (1 : ℝ) :=
          Real.rpow_le_rpow_of_exponent_le (by norm_num) (by simpa using hm)
      _ = 50000 := Real.rpow_one _

theorem C8_witness :
    (predict (fun _ => (0 : ℝ)) [pep] ["HLA-A*03:01"]).length = 1 ∧
    ∀ r ∈ predict (fun _ => (0 : ℝ)) [pep] ["HLA-A*03:01"],
      0 < r.2.2 ∧ ((0 : ℝ) ≤ 0 → r.2.2 ≤ 50000) :=
  C8_one_row (fun _ => 0)

lemma oneHotCols_eq_codes {seq : List Char} (h : ∀ c ∈ seq, c ∈ codes) :
    oneHotCols seq = codes := by
  unfold oneHotCols
  have hf : seq.filter (fun c => decide (c ∉ codes)) = [] := by
    rw [List.filter_eq_nil_iff]
    intro a ha
    simp [h a ha]
  rw [hf]
  decide

lemma flatMap_getD {α β : Type} (g : α → List β) (n : Nat)
    (hg : ∀ a, (g a).length = n) (l : List α) (i j : Nat)
    (hi : i < l.length) (hj : j < n) (da : α) (db : β) :
    (l.flatMap g).getD (n * i + j) db = (g (l.getD i da)).getD j db := by
  induction l generalizing i with
  | nil => exact absurd hi (by simp)
  | cons a l ih =>
    cases i with
    | zero =>
      rw [List.flatMap_cons, Nat.mul_zero, Nat.zero_add,
        List.getD_append _ _ _ _ (by rw [hg a]; exact hj)]
      rfl
    | succ i =>
      have hix : n * (i + 1) + j = n + (n * i + j) := by ring
      rw [List.flatMap_cons, hix,
        List.getD_append_right _ _ _ _ (by rw [hg a]; exact Nat.le_add_right n _)]
      rw [hg a, Nat.add_sub_cancel_left]
      exact ih i (Nat.lt_of_succ_lt_succ hi)

lemma one_hot_encode_length (seq : List Char) :
    (one_hot_encode seq).length = seq.length * (oneHotCols seq).length := by
  unfold one_hot_encode
  rw [List.length_flatMap]
  simp only [Function.comp_def, List.length_map, List.map_const', List.sum_replicate,
    smul_eq_mul]

lemma oneHotCols_length (seq : List Char) :
    (oneHotCols seq).length
      = 20 + ((seq.filter (fun c => decide (c ∉ codes))).dedup).length := by
  unfold oneHotCols
  rw [List.length_insertionSort, List.length_append]
  have h20 : codes.length = 20 := rfl
  rw [h20]

lemma count_one_row :
    ∀ b ∈ codes, ((codes.map (fun c => if c = b then (1 : Nat) else 0)).count 1) = 1 := by
  decide

lemma row_getD :
    ∀ b ∈ codes, ∀ j ∈ List.range 20,
      ((codes.map (fun c => if c = b then (1 : Nat) else 0)).getD j 0)
        = if j = codes.indexOf b then 1 else 0 := by
  decide

lemma count_one_flatMap (l : List Char) (h : ∀ c ∈ l, c ∈ codes) :
    (l.flatMap (fun ch => codes.map (fun c => if c = ch then (1 : Nat) else 0))).count 1
      = l.length := by
  induction l with
  | nil => rfl
  | cons a l ih =>
    rw [List.flatMap_cons, List.count_append,
      count_one_row a (h a (List.mem_cons_self _ _)),
      ih (fun c hc => h c (List.mem_cons_of_mem _ hc)), List.length_cons]
    omega

/-- C5: on a peptide of length `L` whose letters all lie in the 20-letter
alphabet, `one_hot_encode` returns `L×20` entries, exactly `L` of them equal
to 1, and position `i` of the peptide contributes a 1 exactly at the index of
its letter in the alphabetically ordered alphabet, 0 elsewhere. -/
theorem C5_one_hot (seq : List Char) (h : ∀ c ∈ seq, c ∈ codes) :
    (one_hot_encode seq).length = 20 * seq.length ∧
    (one_hot_encode seq).count 1 = seq.length ∧
    ∀ i, i < seq.length → ∀ j, j < 20 →
      (one_hot_encode seq).getD (20 * i + j) 0
        = if j = codes.indexOf (seq.getD i 'A') then 1 else 0 := by
  have hcols := oneHotCols_eq_codes h
  have hrepr : one_hot_encode seq
      = seq.flatMap (fun ch => codes.map (fun c => if c = ch then 1 else 0)) := by
    unfold one_hot_encode
    rw [hcols]
  refine ⟨?_, ?_, ?_⟩
  · rw [one_hot_encode_length, hcols]
    have h20 : codes.length = 20 := rfl
    rw [h20, Nat.mul_comm]
  · rw [hrepr]
    exact count_one_flatMap seq h
  · intro i hi j hj
    rw [hrepr,
      flatMap_getD (fun ch => codes.map (fun c => if c = ch then 1 else 0)) 20
        (fun a => by rw [List.length_map]; rfl) seq i j hi hj 'A' 0]
    have hmem : seq.getD i 'A' ∈ seq := by
      rw [List.getD_eq_getElem _ _ hi]
      exact List.getElem_mem hi
    exact row_getD _ (h _ hmem) j (List.mem_range.mpr hj)

theorem C5_witness :
    (∀ c ∈ pep, c ∈ codes) ∧
    ((one_hot_encode pep).length = 20 * pep.length ∧
     (one_hot_encode pep).count 1 = pep.length ∧
     ∀ i, i < pep.length → ∀ j, j < 20 →
       (one_hot_encode pep).getD (20 * i + j) 0
         = if j = codes.indexOf (pep.getD i 'A') then 1 else 0) :=
  ⟨by decide, C5_one_hot pep (by decide)⟩

/-- C10: on a sequence containing `k ≥ 1` distinct letters outside the
alphabet, `one_hot_encode` raises no error: the unknown letters become extra
dummy columns and the output has length `L×(20+k)`. -/
theorem C10_extra_columns (seq : List Char)
    (hk : 1 ≤ ((seq.filter (fun c => decide (c ∉ codes))).dedup).length) :
    (one_hot_encode seq).length
      = seq.length * (20 + ((seq.filter (fun c => decide (c ∉ codes))).dedup).length) := by
  rw [one_hot_encode_length, oneHotCols_length]

theorem C10_witness :
    1 ≤ (((['G', 'X', 'G'] : List Char).filter (fun c => decide (c ∉ codes))).dedup).length ∧
    (one_hot_encode ['G', 'X', 'G']).length
      = (['G', 'X', 'G'] : List Char).length
        * (20 + (((['G', 'X', 'G'] : List Char).filter
            (fun c => decide (c ∉ codes))).dedup).length) :=
  ⟨by decide, C10_extra_columns _ (by decide)⟩

/-- C2 is false of the code: on the input `"X"`, whose letter lies outside the
alphabet, `one_hot_encode` raises nothing and returns a 21-entry one-hot
vector (the unknown letter gets its own column, sorted between `W` and `Y`). -/
theorem C2_counterexample :
    ('X' ∉ codes) ∧
    one_hot_encode ['X']
      = [0, 0, 0, 0, 0, 0, 0, 0, 0, 0, 0, 0, 0, 0, 0, 0, 0, 0, 0, 1, 0] :=
  ⟨by decide, by decide⟩

/-- C2 (amended): a sequence containing a letter outside the alphabet is not
rejected: `one_hot_encode` returns an encoded vector, strictly longer than
`L×20` because the unknown letters are added as extra columns. -/
theorem C2_not_rejected (seq : List Char) (h : ∃ c ∈ seq, c ∉ codes) :
    20 * seq.length < (one_hot_encode seq).length := by
  obtain ⟨c, hc, hnc⟩ := h
  rw [one_hot_encode_length, oneHotCols_length]
  have hkmem : c ∈ (seq.filter (fun c => decide (c ∉ codes))).dedup := by
    rw [List.mem_dedup, List.mem_filter]
    exact ⟨hc, by simpa using hnc⟩
  have hk : 0 < ((seq.filter (fun c => decide (c ∉ codes))).dedup).length :=
    List.length_pos.mpr (List.ne_nil_of_mem hkmem)
  have hL : 0 < seq.length := List.length_pos.mpr (List.ne_nil_of_mem hc)
  have h2 : seq.length * (20 + ((seq.filter (fun c => decide (c ∉ codes))).dedup).length)
      = 20 * seq.length
        + seq.length * ((seq.filter (fun c => decide (c ∉ codes))).dedup).length := by
    ring
  rw [h2]
  exact Nat.lt_add_of_pos_right (Nat.mul_pos hL hk)

theorem C2_witness :
    (∃ c ∈ (['G', 'X', 'G'] : List Char), c ∉ codes) ∧
    20 * (['G', 'X', 'G'] : List Char).length < (one_hot_encode ['G', 'X', 'G']).length :=
  ⟨by decide, C2_not_rejected _ (by decide)⟩

lemma blosum_row_spec :
    ∀ c ∈ codes,
      (blosum62 c).take ((blosum62 c).length - 4) = (blosum62 c).take 20 ∧
      ((blosum62 c).take ((blosum62 c).length - 4)).length = 20 := by
  decide

/-- C6: on a peptide over the alphabet, `blosum_encode` drops exactly the 4
trailing ambiguity/gap columns of each BLOSUM62 row — each position
contributes the row truncated to its first 20 columns — so the output has
length `L×20`. -/
theorem C6_blosum (seq : List Char) (h : ∀ c ∈ seq, c ∈ codes) :
    (blosum_encode seq).length = 20 * seq.length ∧
    blosum_encode seq = seq.flatMap (fun c => (blosum62 c).take 20) := by
  induction seq with
  | nil => exact ⟨rfl, rfl⟩
  | cons a l ih =>
    have ha := h a (List.mem_cons_self _ _)
    obtain ⟨ih1, ih2⟩ := ih (fun c hc => h c (List.mem_cons_of_mem _ hc))
    have hrow := blosum_row_spec a ha
    have hcons : blosum_encode (a :: l)
        = (blosum62 a).take ((blosum62 a).length - 4) ++ blosum_encode l := by
      unfold blosum_encode
      rw [List.flatMap_cons]
    constructor
    · rw [hcons, List.length_append, hrow.2, ih1, List.length_cons]
      ring
    · rw [hcons, hrow.1, ih2, List.flatMap_cons]

theorem C6_witness :
    (∀ c ∈ pep, c ∈ codes) ∧
    ((blosum_encode pep).length = 20 * pep.length ∧
     blosum_encode pep = pep.flatMap (fun c => (blosum62 c).take 20)) :=
  ⟨by decide, C6_blosum pep (by decide)⟩

/-- C7: when every true label binarizes to the same class (all at or below the
cutoff, or all above it), `auc_score` yields the defined sentinel `none`
(sklearn's NaN) instead of crashing. -/
theorem C7_constant_labels (t sc : List ℚ) (cutoff : ℚ)
    (hlen : t.length = sc.length) (hne : t ≠ [])
    (h : (∀ v ∈ t, v ≤ cutoff) ∨ (∀ v ∈ t, ¬ v ≤ cutoff)) :
    auc_score t sc cutoff = none := by
  unfold auc_score roc_auc
  rcases h with h | h
  · have hneg : ((t.map (fun v => decide (v ≤ cutoff))).zip
        (sc.map (fun v => if v ≤ cutoff then (1 : ℚ) else 0))).filter
          (fun r => !r.1) = [] := by
      rw [List.filter_eq_nil_iff]
      intro r hr
      obtain ⟨rb, rq⟩ := r
      have h1 : rb ∈ t.map (fun v => decide (v ≤ cutoff)) := (List.of_mem_zip hr).1
      rw [List.mem_map] at h1
      obtain ⟨v, hv, hdec⟩ := h1
      simp [← hdec, h v hv]
    simp [hneg]
  · have hpos : ((t.map (fun v => decide (v ≤ cutoff))).zip
        (sc.map (fun v => if v ≤ cutoff then (1 : ℚ) else 0))).filter
          (fun r => r.1) = [] := by
      rw [List.filter_eq_nil_iff]
      intro r hr
      obtain ⟨rb, rq⟩ := r
      have h1 : rb ∈ t.map (fun v => decide (v ≤ cutoff)) := (List.of_mem_zip hr).1
      rw [List.mem_map] at h1
      obtain ⟨v, hv, hdec⟩ := h1
      simp [← hdec, h v hv]
    simp [hpos]

theorem C7_witness :
    ((([1/10, 2/10] : List ℚ).length = ([5/10, 9/10] : List ℚ).length) ∧
     ([1/10, 2/10] : List ℚ) ≠ [] ∧
     (∀ v ∈ ([1/10, 2/10] : List ℚ), v ≤ 426/1000)) ∧
    auc_score [1/10, 2/10] [5/10, 9/10] (426/1000) = none :=
  ⟨⟨rfl, by simp, by norm_num⟩,
   C7_constant_labels _ _ _ rfl (by simp) (Or.inl (by norm_num))⟩

lemma inner_sum (p : ℚ) (hp : p = 0 ∨ p = 1) (neg : List ℚ)
    (hn : ∀ x ∈ neg, x = 0 ∨ x = 1) :
    (neg.map (fun n => if n < p then (1 : ℚ) else if p = n then 1/2 else 0)).sum
      = if p = 1 then (neg.count 0 : ℚ) + (neg.count 1 : ℚ) / 2
        else (neg.count 0 : ℚ) / 2 := by
  induction neg with
  | nil => rcases hp with hp | hp <;> simp [hp]
  | cons n neg ih =>
    have hn0 := hn n (List.mem_cons_self _ _)
    have ih' := ih (fun x hx => hn x (List.mem_cons_of_mem _ hx))
    rw [List.map_cons, List.sum_cons, ih']
    rcases hp with hp | hp <;> rcases hn0 with h0 | h0 <;> subst hp <;> subst h0 <;>
      norm_num [List.count_cons] <;> push_cast <;> ring

lemma pair_sum (pos neg : List ℚ) (hp : ∀ x ∈ pos, x = 0 ∨ x = 1)
    (hn : ∀ x ∈ neg, x = 0 ∨ x = 1) :
    (pos.flatMap (fun p => neg.map (fun n =>
        if n < p then (1 : ℚ) else if p = n then 1/2 else 0))).sum
      = (pos.count 1 : ℚ) * (neg.count 0 : ℚ)
        + ((pos.count 1 : ℚ) * (neg.count 1 : ℚ)
           + (pos.count 0 : ℚ) * (neg.count 0 : ℚ)) / 2 := by
  induction pos with
  | nil => simp
  | cons p pos ih =>
    have hp0 := hp p (List.mem_cons_self _ _)
    have ih' := ih (fun x hx => hp x (List.mem_cons_of_mem _ hx))
    rw [List.flatMap_cons, List.sum_append, ih', inner_sum p hp0 neg hn]
    rcases hp0 with h | h <;> subst h <;>
      norm_num [List.count_cons] <;> push_cast <;> ring

lemma length_eq_counts (l : List ℚ) (h : ∀ x ∈ l, x = 0 ∨ x = 1) :
    l.length = l.count 0 + l.count 1 := by
  induction l with
  | nil => rfl
  | cons a l ih =>
    have h0 := h a (List.mem_cons_self _ _)
    have ih' := ih (fun x hx => h x (List.mem_cons_of_mem _ hx))
    rcases h0 with h0 | h0 <;> subst h0 <;>
      norm_num [List.count_cons, ih'] <;> omega

lemma roc_auc_eq_counts (pr : List (Bool × ℚ))
    (hb : ∀ r ∈ pr, r.2 = 0 ∨ r.2 = 1)
    (hpos : 0 < pr.countP (fun r => r.1))
    (hneg : 0 < pr.countP (fun r => !r.1)) :
    roc_auc pr = some
      (((pr.countP (fun r => r.1 && (r.2 == 1)) : ℚ)
          * (pr.countP (fun r => !r.1 && (r.2 == 0)) : ℚ)
        + ((pr.countP (fun r => r.1 && (r.2 == 1)) : ℚ)
            * (pr.countP (fun r => !r.1 && (r.2 == 1)) : ℚ)
          + (pr.countP (fun r => r.1 && (r.2 == 0)) : ℚ)
            * (pr.countP (fun r => !r.1 && (r.2 == 0)) : ℚ)) / 2)
       / ((pr.countP (fun r => r.1) : ℚ) * (pr.countP (fun r => !r.1) : ℚ))) := by
  have hposlen : ((pr.filter (fun r => r.1)).map (fun r => r.2)).length
      = pr.countP (fun r => r.1) := by
    rw [List.length_map, ← List.countP_eq_length_filter]
  have hneglen : ((pr.filter (fun r => !r.1)).map (fun r => r.2)).length
      = pr.countP (fun r => !r.1) := by
    rw [List.length_map, ← List.countP_eq_length_filter]
  have hbp : ∀ x ∈ (pr.filter (fun r => r.1)).map (fun r => r.2), x = 0 ∨ x = 1 := by
    intro x hx
    rw [List.mem_map] at hx
    obtain ⟨r, hr, hxx⟩ := hx
    exact hxx ▸ hb r (List.mem_of_mem_filter hr)
  have hbn : ∀ x ∈ (pr.filter (fun r => !r.1)).map (fun r => r.2), x = 0 ∨ x = 1 := by
    intro x hx
    rw [List.mem_map] at hx
    obtain ⟨r, hr, hxx⟩ := hx
    exact hxx ▸ hb r (List.mem_of_mem_filter hr)
  have hc1 : ∀ q : Bool × ℚ → Bool, ∀ y : ℚ,
      ((pr.filter q).map (fun r => r.2)).count y
        = pr.countP (fun r => q r && (r.2 == y)) := by
    intro q y
    rw [List.count_eq_countP, List.countP_map, List.countP_filter]
    apply List.countP_congr
    intro r _
    simp [Function.comp, Bool.and_comm]
  have hif : ¬(((pr.filter (fun r => r.1)).map (fun r => r.2)).length = 0
      ∨ ((pr.filter (fun r => !r.1)).map (fun r => r.2)).length = 0) := by
    rw [hposlen, hneglen]
    omega
  have hroc : roc_auc pr
      = if ((pr.filter (fun r => r.1)).map (fun r => r.2)).length = 0
            ∨ ((pr.filter (fun r => !r.1)).map (fun r => r.2)).length = 0 then none
        else some
          ((((pr.filter (fun r => r.1)).map (fun r => r.2)).flatMap (fun p =>
              ((pr.filter (fun r => !r.1)).map (fun r => r.2)).map (fun n =>
                if n < p then (1 : ℚ) else if p = n then 1/2 else 0))).sum
            / ((((pr.filter (fun r => r.1)).map (fun r => r.2)).length : ℚ)
               * (((pr.filter (fun r => !r.1)).map (fun r => r.2)).length : ℚ))) := rfl
  rw [hroc, if_neg hif,
    pair_sum ((pr.filter (fun r => r.1)).map (fun r => r.2))
      ((pr.filter (fun r => !r.1)).map (fun r => r.2)) hbp hbn,
    hc1, hc1, hc1, hc1, hposlen, hneglen]

lemma ind_beq_one (v c : ℚ) :
    ((if v ≤ c then (1 : ℚ) else 0) == 1) = decide (v ≤ c) := by
  by_cases h : v ≤ c
  · simp [h]
  · have h0 : ((0 : ℚ) == 1) = false := beq_eq_false_iff_ne.mpr (by norm_num)
    rw [if_neg h, h0]
    simp [h]

lemma ind_beq_zero (v c : ℚ) :
    ((if v ≤ c then (1 : ℚ) else 0) == 0) = !decide (v ≤ c) := by
  by_cases h : v ≤ c
  · have h0 : ((1 : ℚ) == 0) = false := beq_eq_false_iff_ne.mpr (by norm_num)
    rw [if_pos h, h0]
    simp [h]
  · simp [h]

lemma countP_split {α : Type} (p q : α → Bool) (l : List α) :
    l.countP p = l.countP (fun a => p a && q a) + l.countP (fun a => p a && !q a) := by
  induction l with
  | nil => rfl
  | cons a l ih =>
    rw [List.countP_cons, List.countP_cons, List.countP_cons, ih]
    by_cases hp : p a <;> by_cases hq : q a <;> simp [hp, hq] <;> omega

lemma auc_score_eq_balancedAcc (t sc : List ℚ) (c : ℚ)
    (hpos : 0 < tpCount c t sc + fnCount c t sc)
    (hneg : 0 < fpCount c t sc + tnCount c t sc) :
    auc_score t sc c = some (balancedAcc c t sc) := by
  unfold auc_score
  rw [List.zip_map]
  have e1 : ((t.zip sc).map (Prod.map (fun v : ℚ => decide (v ≤ c))
        (fun v : ℚ => if v ≤ c then (1 : ℚ) else 0))).countP
      (fun r => r.1 && (r.2 == 1)) = tpCount c t sc := by
    rw [List.countP_map, tpCount, ← List.countP_eq_length_filter]
    apply List.countP_congr
    intro r _
    simp [Function.comp, ind_beq_one]
  have e2 : ((t.zip sc).map (Prod.map (fun v : ℚ => decide (v ≤ c))
        (fun v : ℚ => if v ≤ c then (1 : ℚ) else 0))).countP
      (fun r => r.1 && (r.2 == 0)) = fnCount c t sc := by
    rw [List.countP_map, fnCount, ← List.countP_eq_length_filter]
    apply List.countP_congr
    intro r _
    simp [Function.comp, ind_beq_zero]
  have e3 : ((t.zip sc).map (Prod.map (fun v : ℚ => decide (v ≤ c))
        (fun v : ℚ => if v ≤ c then (1 : ℚ) else 0))).countP
      (fun r => !r.1 && (r.2 == 1)) = fpCount c t sc := by
    rw [List.countP_map, fpCount, ← List.countP_eq_length_filter]
    apply List.countP_congr
    intro r _
    simp [Function.comp, ind_beq_one]
  have e4 : ((t.zip sc).map (Prod.map (fun v : ℚ => decide (v ≤ c))
        (fun v : ℚ => if v ≤ c then (1 : ℚ) else 0))).countP
      (fun r => !r.1 && (r.2 == 0)) = tnCount c t sc := by
    rw [List.countP_map, tnCount, ← List.countP_eq_length_filter]
    apply List.countP_congr
    intro r _
    simp [Function.comp, ind_beq_zero]
  have e5 : ((t.zip sc).map (Prod.map (fun v : ℚ => decide (v ≤ c))
        (fun v : ℚ => if v ≤ c then (1 : ℚ) else 0))).countP (fun r => r.1)
      = tpCount c t sc + fnCount c t sc := by
    rw [List.countP_map, tpCount, fnCount, ← List.countP_eq_length_filter,
      ← List.countP_eq_length_filter,
      ← countP_split (fun r : ℚ × ℚ => decide (r.1 ≤ c)) (fun r => decide (r.2 ≤ c))]
    apply List.countP_congr
    intro r _
    simp [Function.comp]
  have e6 : ((t.zip sc).map (Prod.map (fun v : ℚ => decide (v ≤ c))
        (fun v : ℚ => if v ≤ c then (1 : ℚ) else 0))).countP (fun r => !r.1)
      = fpCount c t sc + tnCount c t sc := by
    rw [List.countP_map, fpCount, tnCount, ← List.countP_eq_length_filter,
      ← List.countP_eq_length_filter,
      ← countP_split (fun r : ℚ × ℚ => !decide (r.1 ≤ c)) (fun r => decide (r.2 ≤ c))]
    apply List.countP_congr
    intro r _
    simp [Function.comp]
  have hb : ∀ r ∈ ((t.zip sc).map (Prod.map (fun v : ℚ => decide (v ≤ c))
      (fun v : ℚ => if v ≤ c then (1 : ℚ) else 0))), r.2 = 0 ∨ r.2 = 1 := by
    intro r hr
    rw [List.mem_map] at hr
    obtain ⟨x, _, hx⟩ := hr
    rw [← hx]
    by_cases h : x.2 ≤ c
    · right
      simp [Prod.map, h]
    · left
      simp [Prod.map, h]
  rw [roc_auc_eq_counts _ hb (by rw [e5]; exact hpos) (by rw [e6]; exact hneg),
    e1, e2, e3, e4, e5, e6]
  have h1 : (0 : ℚ) < (tpCount c t sc : ℚ) + (fnCount c t sc : ℚ) := by
    exact_mod_cast hpos
  have h2 : (0 : ℚ) < (fpCount c t sc : ℚ) + (tnCount c t sc : ℚ) := by
    exact_mod_cast hneg
  have h1' : (tpCount c t sc : ℚ) + (fnCount c t sc : ℚ) ≠ 0 := ne_of_gt h1
  have h2' : (tnCount c t sc : ℚ) + (fpCount c t sc : ℚ) ≠ 0 := by
    rw [add_comm]
    exact ne_of_gt h2
  congr 1
  unfold balancedAcc
  push_cast
  field_simp [h1', h2']
  ring

/-- C1 is false of the code on the "continuous score" point: `auc_score`
thresholds the prediction scores before the ROC computation, so on
`true = [0.1, 0.9]`, `sc = [0.2, 0.3]`, cutoff `0.426` it returns `1/2`
(both binarized scores are 1, a tie), while the ROC-AUC of the continuous
scores against the binarized labels is `0`; the three-repeat evaluation
returns the same `1/2`, not the mean of continuous-score AUCs. -/
theorem C1_counterexample :
    auc_score [1/10, 9/10] [2/10, 3/10] (426/1000) = some (1/2) ∧
    auc_score_spec [1/10, 9/10] [2/10, 3/10] (426/1000) = some 0 ∧
    test_predictor [([1/10, 9/10], [2/10, 3/10]), ([1/10, 9/10], [2/10, 3/10]),
        ([1/10, 9/10], [2/10, 3/10])] = some (1/2) := by
  refine ⟨?_, ?_, ?_⟩ <;>
    norm_num [test_predictor, auc_score, auc_score_spec, roc_auc]

/-- C1 (amended): the evaluation routine runs 3 repeats (the code's
`range(3)`); per repeat it computes the ROC-AUC of the score binarized at the
cutoff against the label binarized at the cutoff — which equals the repeat's
balanced accuracy `(TPR + TNR)/2`, not the continuous-score AUC — and returns
the arithmetic mean over the repeats.  The random 70/30 split and the model
fit are external; each repeat is abstracted as its held-out truths and
scores. -/
theorem C1_binarized_mean (rs : List (List ℚ × List ℚ))
    (hreps : rs.length = 3)
    (hcls : ∀ r ∈ rs,
      0 < tpCount (426/1000) r.1 r.2 + fnCount (426/1000) r.1 r.2 ∧
      0 < fpCount (426/1000) r.1 r.2 + tnCount (426/1000) r.1 r.2) :
    test_predictor rs
      = some ((rs.map (fun r => balancedAcc (426/1000) r.1 r.2)).sum / 3) := by
  unfold test_predictor
  have hmap : rs.map (fun r => auc_score r.1 r.2 (426/1000))
      = rs.map (fun r => some (balancedAcc (426/1000) r.1 r.2)) := by
    apply List.map_congr_left
    intro r hr
    exact auc_score_eq_balancedAcc r.1 r.2 _ (hcls r hr).1 (hcls r hr).2
  rw [hmap]
  have hall : (rs.map (fun r => some (balancedAcc (426/1000) r.1 r.2))).all
      (fun o => o.isSome) = true := by
    rw [List.all_eq_true]
    intro o ho
    rw [List.mem_map] at ho
    obtain ⟨r, _, hr⟩ := ho
    rw [← hr]
    rfl
  rw [if_pos hall, List.map_map, List.length_map, hreps]
  simp [Function.comp_def]

theorem C1_witness :
    test_predictor [evalRepeat, evalRepeat, evalRepeat]
      = some ((([evalRepeat, evalRepeat, evalRepeat].map
          (fun r => balancedAcc (426/1000) r.1 r.2)).sum) / 3) :=
  C1_binarized_mean _ rfl (by
    intro r hr
    have hre : r = evalRepeat := by
      simp only [List.mem_cons, List.not_mem_nil, or_false] at hr
      rcases hr with h | h | h <;> exact h
    subst hre
    constructor <;> norm_num [tpCount, fnCount, fpCount, tnCount, evalRepeat])

end MhcI
